import Mathlib

/-!
Shallow embedding of `deep_sort_realtime/deep_sort/track.py`.

Numpy float arrays are modelled as `List ℚ` (exact rational arithmetic in
place of IEEE doubles); covariance matrices as `List (List ℚ)`.  Python
`None` is modelled by `Option`.  The appearance feature, the instance mask
and the free-form `others` payload are opaque to `Track`, so they are type
parameters `F`, `M`, `O`.  The external Kalman filter is a record of the two
functions `predict` and `update` that `Track` calls.

A second, heap-based embedding of the read-only geometry accessors appears
further below (`Heap`, `HTrack`, `hto_ltwh`, ...): there numpy arrays live
in an explicit store addressed by ids, `.copy()` is an allocation and the
in-place slice assignments are store writes, so that the absence of
mutation of the track's own arrays is a real theorem rather than a
modelling artifact.
-/

/-- The `TrackState` enumeration from `track.py`: `Tentative = 1`,
`Confirmed = 2`, `Deleted = 3`. -/
inductive TrackState where
  | Tentative
  | Confirmed
  | Deleted
deriving DecidableEq, Repr

/-- Numeric rank of a `TrackState` along the lifecycle order
Tentative → Confirmed → Deleted (used to state monotonicity). -/
def stateRank : TrackState → ℕ
  | TrackState.Tentative => 0
  | TrackState.Confirmed => 1
  | TrackState.Deleted => 2

/-- numpy floor division `x // y` on doubles: `floor(x / y)`, modelled on ℚ. -/
def floordiv (x y : ℚ) : ℚ := ((Int.floor (x / y) : ℤ) : ℚ)

/-- Body of `Track.to_center`, applied to a length-4 box:
`ret = ltwh.copy(); ret[:2] += ret[2:] // 2; return ret[:2]`. -/
def centerOf (b : List ℚ) : List ℚ :=
  [b.getD 0 0 + floordiv (b.getD 2 0) 2, b.getD 1 0 + floordiv (b.getD 3 0) 2]

/-- The Kalman-filter-derived box of `to_ltwh`:
`ret = mean[:4].copy(); ret[2] *= ret[3]; ret[:2] -= ret[2:] / 2`. -/
def kfBox (mean : List ℚ) : List ℚ :=
  let x := mean.getD 0 0
  let y := mean.getD 1 0
  let a := mean.getD 2 0
  let h := mean.getD 3 0
  [x - a * h / 2, y - h / 2, a * h, h]

/-- The corner transform of `to_ltrb`: `ret[2:] = ret[:2] + ret[2:]`. -/
def ltwh_to_ltrb (b : List ℚ) : List ℚ :=
  [b.getD 0 0, b.getD 1 0, b.getD 0 0 + b.getD 2 0, b.getD 1 0 + b.getD 3 0]

/-- Modelled from the spec: the inverse corner-to-width/height conversion
("converting the result back by subtracting"), which the source does not
define; it recovers width and height by subtracting the top-left corner. -/
def ltrb_to_ltwh (b : List ℚ) : List ℚ :=
  [b.getD 0 0, b.getD 1 0, b.getD 2 0 - b.getD 0 0, b.getD 3 0 - b.getD 1 0]

/-- The external Kalman filter collaborator: `predict(mean, covariance)` and
`update(mean, covariance, measurement)` both return `(mean, covariance)`. -/
structure KalmanFilter where
  predict : List ℚ → List (List ℚ) → List ℚ × List (List ℚ)
  update : List ℚ → List (List ℚ) → List ℚ → List ℚ × List (List ℚ)

/-- The `Detection` collaborator consumed by `Track.update`: a raw
`(left, top, width, height)` box (`get_ltwh()`), its `(cx, cy, a, h)` form
(`to_xyah()`), and the per-detection metadata fields. -/
structure Detection (F M O : Type) where
  ltwh : List ℚ
  xyah : List ℚ
  feature : Option F
  confidence : Option ℚ
  class_name : Option String
  instance_mask : Option M
  others : Option O
deriving DecidableEq

/-- The `Track` entity: fields of `Track.__init__` in `track.py`.
`n_init` and `max_age` model the private `_n_init` / `_max_age`. -/
structure Track (F M O : Type) where
  mean : List ℚ
  covariance : List (List ℚ)
  track_id : ℕ
  hits : ℕ
  age : ℕ
  time_since_update : ℕ
  state : TrackState
  features : List (Option F)
  latest_feature : Option F
  n_init : ℤ
  max_age : ℤ
  original_ltwh : Option (List ℚ)
  det_class : Option String
  det_conf : Option ℚ
  instance_mask : Option M
  others : Option O
  trajectory : List (List ℚ)
deriving DecidableEq

/-- Constructor `Track.__init__`: `hits = 1`, `age = 1`, `time_since_update = 0`,
`state = Tentative`; the feature seeds `features`/`latest_feature` only if
present; the trajectory gets the detection center only if `original_ltwh`
is present. -/
def initTrack {F M O : Type} (mean : List ℚ) (covariance : List (List ℚ))
    (track_id : ℕ) (n_init max_age : ℤ) (feature : Option F)
    (original_ltwh : Option (List ℚ)) (det_class : Option String)
    (det_conf : Option ℚ) (instance_mask : Option M) (others : Option O) :
    Track F M O :=
  { mean := mean
    covariance := covariance
    track_id := track_id
    hits := 1
    age := 1
    time_since_update := 0
    state := TrackState.Tentative
    features := match feature with
      | some f => [some f]
      | none => []
    latest_feature := feature
    n_init := n_init
    max_age := max_age
    original_ltwh := original_ltwh
    det_class := det_class
    det_conf := det_conf
    instance_mask := instance_mask
    others := others
    trajectory := match original_ltwh with
      | some b => [centerOf b]
      | none => [] }

/-- Method `Track.to_center` (value level): reads `self.original_ltwh`; in Python a
call with `original_ltwh = None` raises, modelled as `none`. -/
def Track.to_center {F M O : Type} (t : Track F M O) : Option (List ℚ) :=
  t.original_ltwh.map centerOf

/-- Method `Track.to_ltwh(orig, orig_strict)` (value level). -/
def Track.to_ltwh {F M O : Type} (t : Track F M O) (orig strict : Bool) :
    Option (List ℚ) :=
  if orig then
    match t.original_ltwh with
    | none => if strict then none else some (kfBox t.mean)
    | some b => some b
  else some (kfBox t.mean)

/-- Method `Track.to_tlwh` delegates to `to_ltwh`. -/
def Track.to_tlwh {F M O : Type} (t : Track F M O) (orig strict : Bool) :
    Option (List ℚ) :=
  t.to_ltwh orig strict

/-- Method `Track.to_ltrb`: `ret = to_ltwh(...)`; when not `None`,
`ret[2:] = ret[:2] + ret[2:]`. -/
def Track.to_ltrb {F M O : Type} (t : Track F M O) (orig strict : Bool) :
    Option (List ℚ) :=
  (t.to_ltwh orig strict).map ltwh_to_ltrb

/-- Method `Track.to_tlbr` delegates to `to_ltrb`. -/
def Track.to_tlbr {F M O : Type} (t : Track F M O) (orig strict : Bool) :
    Option (List ℚ) :=
  t.to_ltrb orig strict

/-- Method `Track.get_trajectory_slope`: `None` for fewer than two points, else
`(traj[-1,1] - traj[0,1]) / (traj[-1,0] - traj[0,0] + 1e-07)`. -/
def Track.get_trajectory_slope {F M O : Type} (t : Track F M O) : Option ℚ :=
  if t.trajectory.length < 2 then none
  else
    let first := t.trajectory.headD []
    let last := t.trajectory.getLastD []
    some ((last.getD 1 0 - first.getD 1 0) /
      (last.getD 0 0 - first.getD 0 0 + 1 / 10000000))

/-- Method `Track.get_velocity(fps)`: `(None, None, None)` for fewer than two
trajectory points; otherwise per-step displacements scaled by `fps`, their
Euclidean magnitudes, epsilon-guarded unit directions, and the mean
magnitude.  `np.sqrt` is an external numeric primitive and is passed in as
the function `sq`. -/
def Track.get_velocity {F M O : Type} (t : Track F M O) (sq : ℚ → ℚ)
    (fps : ℚ) : Option ℚ × Option (List ℚ) × Option (List (List ℚ)) :=
  if t.trajectory.length < 2 then (none, none, none)
  else
    let velocity := List.zipWith
      (fun q p => List.zipWith (fun a b => (a - b) * fps) q p)
      t.trajectory.tail t.trajectory
    let magnitude := fun v : List ℚ => sq (v.foldl (fun s a => s + a * a) 0)
    let mags := velocity.map magnitude
    let dirs := velocity.map
      (fun v => v.map (fun a => a / (magnitude v + 1 / 100000000)))
    let avg := (mags.foldl (fun s a => s + a) 0) / (mags.length : ℚ)
    (some avg, some mags, some dirs)

/-- Method `Track.predict(kf)`: filter prediction step, `age += 1`,
`time_since_update += 1`, clear the per-cycle detection snapshot. -/
def Track.predict {F M O : Type} (t : Track F M O) (kf : KalmanFilter) :
    Track F M O :=
  let mc := kf.predict t.mean t.covariance
  { t with
    mean := mc.1
    covariance := mc.2
    age := t.age + 1
    time_since_update := t.time_since_update + 1
    original_ltwh := none
    det_conf := none
    instance_mask := none
    others := none }

/-- Method `Track.update(kf, detection)`: store the raw box, filter correction
step, append the detection feature (unconditionally, even when absent),
copy metadata, append the fresh center to the trajectory, `hits += 1`,
`time_since_update = 0`, and confirm when tentative with
`hits >= n_init`. -/
def Track.update {F M O : Type} (t : Track F M O) (kf : KalmanFilter)
    (d : Detection F M O) : Track F M O :=
  let mc := kf.update t.mean t.covariance d.xyah
  let t1 : Track F M O :=
    { t with
      original_ltwh := some d.ltwh
      mean := mc.1
      covariance := mc.2
      features := t.features ++ [d.feature]
      latest_feature := d.feature
      det_conf := d.confidence
      det_class := d.class_name
      instance_mask := d.instance_mask
      others := d.others
      trajectory := t.trajectory ++ [centerOf d.ltwh]
      hits := t.hits + 1
      time_since_update := 0 }
  if t1.state = TrackState.Tentative ∧ (t1.hits : ℤ) ≥ t1.n_init then
    { t1 with state := TrackState.Confirmed }
  else t1

/-- Method `Track.mark_missed()`: a tentative track is deleted outright; otherwise
the track is deleted when `time_since_update > max_age`. -/
def Track.mark_missed {F M O : Type} (t : Track F M O) : Track F M O :=
  if t.state = TrackState.Tentative then { t with state := TrackState.Deleted }
  else if (t.time_since_update : ℤ) > t.max_age then
    { t with state := TrackState.Deleted }
  else t

/-- One external call into a `Track`: the three lifecycle mutators. -/
inductive Call (F M O : Type) where
  | predict (kf : KalmanFilter)
  | update (kf : KalmanFilter) (d : Detection F M O)
  | mark_missed

/-- Apply one call to a track. -/
def applyCall {F M O : Type} : Call F M O → Track F M O → Track F M O
  | Call.predict kf, t => t.predict kf
  | Call.update kf d, t => t.update kf d
  | Call.mark_missed, t => t.mark_missed

/-- Apply a finite sequence of calls, left to right. -/
def applyCalls {F M O : Type} (cs : List (Call F M O)) (t : Track F M O) :
    Track F M O :=
  cs.foldl (fun t c => applyCall c t) t

/-! ### Heap model of the geometry accessors

numpy arrays live in a store addressed by ids; `.copy()` allocates a fresh
array, in-place slice assignments write through the id.  Only the fields
the geometry accessors touch (`mean`, `original_ltwh`) are kept. -/

/-- Store of numpy arrays, addressed by position. -/
abbrev Heap : Type := List (List ℚ)

/-- Dereference an array id. -/
def hread (h : Heap) (i : ℕ) : List ℚ :=
  List.getD h i []

/-- In-place mutation of the array at id `i`. -/
def hwrite (h : Heap) (i : ℕ) (v : List ℚ) : Heap :=
  List.set h i v

/-- Allocation, modelling `.copy()` and fresh-array creation: allocate `v`, return its id. -/
def halloc (h : Heap) (v : List ℚ) : ℕ × Heap :=
  (List.length h, h ++ [v])

/-- The geometry-relevant slice of a `Track` in the heap model: the fields
`mean` and `original_ltwh` hold array ids into the heap. -/
structure HTrack where
  meanId : ℕ
  origId : Option ℕ
deriving DecidableEq

/-- Heap version of the Kalman-derived box of `to_ltwh`:
`ret = self.mean[:4].copy()` allocates, then `ret[2] *= ret[3]` and
`ret[:2] -= ret[2:] / 2` write in place through the fresh id. -/
def hkfBox (h : Heap) (t : HTrack) : Option ℕ × Heap :=
  let a := halloc h ((hread h t.meanId).take 4)
  let rid := a.1
  let h1 := a.2
  let v1 := hread h1 rid
  let h2 := hwrite h1 rid (v1.set 2 (v1.getD 2 0 * v1.getD 3 0))
  let v2 := hread h2 rid
  let h3 := hwrite h2 rid
    ((v2.set 0 (v2.getD 0 0 - v2.getD 2 0 / 2)).set 1
      (v2.getD 1 0 - v2.getD 3 0 / 2))
  (some rid, h3)

/-- Heap version of `Track.to_ltwh`: the `orig` branch returns
`self.original_ltwh.copy()` (an allocation), strict mode returns `None`
without touching the heap. -/
def hto_ltwh (h : Heap) (t : HTrack) (orig strict : Bool) : Option ℕ × Heap :=
  if orig then
    match t.origId with
    | none => if strict then (none, h) else hkfBox h t
    | some oid =>
      let a := halloc h (hread h oid)
      (some a.1, a.2)
  else hkfBox h t

/-- Heap version of `Track.to_tlwh` (delegation). -/
def hto_tlwh (h : Heap) (t : HTrack) (orig strict : Bool) : Option ℕ × Heap :=
  hto_ltwh h t orig strict

/-- Heap version of `Track.to_ltrb`: `ret = self.to_ltwh(...)`; when not
`None`, `ret[2:] = ret[:2] + ret[2:]` writes in place through `ret`'s id. -/
def hto_ltrb (h : Heap) (t : HTrack) (orig strict : Bool) : Option ℕ × Heap :=
  let r := hto_ltwh h t orig strict
  match r.1 with
  | none => (none, r.2)
  | some rid =>
    let v := hread r.2 rid
    (some rid, hwrite r.2 rid
      ((v.set 2 (v.getD 0 0 + v.getD 2 0)).set 3 (v.getD 1 0 + v.getD 3 0)))

/-- Heap version of `Track.to_tlbr` (delegation). -/
def hto_tlbr (h : Heap) (t : HTrack) (orig strict : Bool) : Option ℕ × Heap :=
  hto_ltrb h t orig strict

/-- Heap version of `Track.to_center`: `ret = self.original_ltwh.copy()`
allocates, `ret[:2] += ret[2:] // 2` writes in place, and the returned
`ret[:2]` slice is materialised as a fresh array.  A call with
`original_ltwh = None` raises in Python, modelled as `none`. -/
def hto_center (h : Heap) (t : HTrack) : Option ℕ × Heap :=
  match t.origId with
  | none => (none, h)
  | some oid =>
    let a := halloc h (hread h oid)
    let rid := a.1
    let h1 := a.2
    let v := hread h1 rid
    let h2 := hwrite h1 rid
      ((v.set 0 (v.getD 0 0 + floordiv (v.getD 2 0) 2)).set 1
        (v.getD 1 0 + floordiv (v.getD 3 0) 2))
    let v2 := hread h2 rid
    let b := halloc h2 (v2.take 2)
    (some b.1, b.2)

/-! ### Concrete instances used to evaluate the definitions -/

/-- A trivial Kalman filter (identity on the belief state), used to
exercise the lifecycle on concrete inputs. -/
def kfId : KalmanFilter :=
  ⟨fun m c => (m, c), fun m c _ => (m, c)⟩

/-- A concrete detection carrying no feature vector. -/
def dNoFeat : Detection ℕ ℕ ℕ :=
  ⟨[10, 20, 30, 40], [25, 40, 3 / 4, 40], none, some 1, some "p", none, none⟩

/-- A concrete detection carrying a feature vector. -/
def dFeat : Detection ℕ ℕ ℕ :=
  ⟨[8, 6, 4, 2], [10, 7, 2, 2], some 9, some 1, some "q", none, none⟩

/-- A concrete freshly constructed track (with a seed feature and an
original box), `n_init = 2`, `max_age = 1`. -/
def tSeed : Track ℕ ℕ ℕ :=
  initTrack [1, 2, 3, 4] [[1, 0], [0, 1]] 0 2 1 (some 5) (some [10, 20, 30, 40])
    (some "p") (some 1) none none

/-! ## Shared lemmas -/

theorem stateRank_le_two (s : TrackState) : stateRank s ≤ 2 := by
  cases s <;> decide

theorem applyCalls_cons {F M O : Type} (c : Call F M O) (cs : List (Call F M O))
    (t : Track F M O) : applyCalls (c :: cs) t = applyCalls cs (applyCall c t) :=
  rfl

theorem update_state_eq {F M O : Type} (kf : KalmanFilter) (d : Detection F M O)
    (t : Track F M O) :
    (t.update kf d).state =
      if t.state = TrackState.Tentative ∧ (t.hits : ℤ) + 1 ≥ t.n_init then
        TrackState.Confirmed
      else t.state := by
  simp only [Track.update]
  split <;> split <;> first
    | rfl
    | (rename_i h1 h2
       exfalso
       first
         | exact h2 ⟨h1.1, by push_cast at h1 ⊢; omega⟩
         | exact h1 ⟨h2.1, by push_cast at h2 ⊢; omega⟩)

theorem update_hits_eq {F M O : Type} (kf : KalmanFilter) (d : Detection F M O)
    (t : Track F M O) : (t.update kf d).hits = t.hits + 1 := by
  simp only [Track.update]
  split <;> rfl

theorem update_n_init_eq {F M O : Type} (kf : KalmanFilter) (d : Detection F M O)
    (t : Track F M O) : (t.update kf d).n_init = t.n_init := by
  simp only [Track.update]
  split <;> rfl

theorem mark_missed_state_eq {F M O : Type} (t : Track F M O) :
    (t.mark_missed).state =
      if t.state = TrackState.Tentative then TrackState.Deleted
      else if (t.time_since_update : ℤ) > t.max_age then TrackState.Deleted
      else t.state := by
  simp only [Track.mark_missed]
  split
  · rfl
  · split <;> rfl

theorem applyCall_state_mono {F M O : Type} (c : Call F M O) (t : Track F M O) :
    stateRank t.state ≤ stateRank (applyCall c t).state := by
  cases c with
  | predict kf => exact le_of_eq rfl
  | update kf d =>
    rw [applyCall, update_state_eq]
    split
    · rename_i h
      rw [h.1]
      decide
    · exact le_refl _
  | mark_missed =>
    rw [applyCall, mark_missed_state_eq]
    split
    · exact stateRank_le_two _
    · split
      · exact stateRank_le_two _
      · exact le_refl _

theorem applyCall_deleted {F M O : Type} (c : Call F M O) (t : Track F M O)
    (h : t.state = TrackState.Deleted) :
    (applyCall c t).state = TrackState.Deleted := by
  cases c with
  | predict kf => exact h
  | update kf d =>
    rw [applyCall, update_state_eq]
    rw [if_neg]
    · exact h
    · intro hc
      rw [h] at hc
      exact absurd hc.1 (by decide)
  | mark_missed =>
    rw [applyCall, mark_missed_state_eq]
    rw [if_neg (by rw [h]; decide)]
    split
    · rfl
    · exact h

theorem applyCall_hits_le {F M O : Type} (c : Call F M O) (t : Track F M O) :
    t.hits ≤ (applyCall c t).hits := by
  cases c with
  | predict kf => exact le_refl _
  | update kf d => rw [applyCall, update_hits_eq]; omega
  | mark_missed =>
    show t.hits ≤ (t.mark_missed).hits
    simp only [Track.mark_missed]
    split
    · exact le_refl _
    · split <;> exact le_refl _

theorem applyCall_n_init {F M O : Type} (c : Call F M O) (t : Track F M O) :
    (applyCall c t).n_init = t.n_init := by
  cases c with
  | predict kf => rfl
  | update kf d => exact update_n_init_eq kf d t
  | mark_missed =>
    show (t.mark_missed).n_init = t.n_init
    simp only [Track.mark_missed]
    split
    · rfl
    · split <;> rfl

theorem mark_missed_frame {F M O : Type} (t : Track F M O) :
    t.mark_missed = { t with state := (t.mark_missed).state } := by
  simp only [Track.mark_missed]
  split
  · rfl
  · split <;> rfl

theorem applyCall_inv_confirmed {F M O : Type} (c : Call F M O) (t : Track F M O)
    (h : t.state = TrackState.Confirmed → (t.hits : ℤ) ≥ t.n_init) :
    (applyCall c t).state = TrackState.Confirmed →
      ((applyCall c t).hits : ℤ) ≥ (applyCall c t).n_init := by
  cases c with
  | predict kf => exact h
  | update kf d =>
    rw [applyCall, update_state_eq, update_hits_eq, update_n_init_eq]
    intro hc
    split at hc
    · rename_i hcond
      have := hcond.2
      push_cast
      omega
    · have := h hc
      push_cast
      omega
  | mark_missed =>
    intro hc
    have hs : (t.mark_missed).state = TrackState.Confirmed := hc
    have hh : (applyCall Call.mark_missed t).hits = t.hits := by
      show (t.mark_missed).hits = t.hits
      rw [mark_missed_frame t]
    have hn : (applyCall Call.mark_missed t).n_init = t.n_init := by
      show (t.mark_missed).n_init = t.n_init
      rw [mark_missed_frame t]
    rw [hh, hn]
    rw [mark_missed_state_eq] at hs
    split at hs
    · exact absurd hs (by decide)
    · split at hs
      · exact absurd hs (by decide)
      · exact h hs

theorem applyCalls_inv_confirmed {F M O : Type} (cs : List (Call F M O))
    (t : Track F M O)
    (h : t.state = TrackState.Confirmed → (t.hits : ℤ) ≥ t.n_init) :
    (applyCalls cs t).state = TrackState.Confirmed →
      ((applyCalls cs t).hits : ℤ) ≥ (applyCalls cs t).n_init := by
  induction cs generalizing t with
  | nil => exact h
  | cons c cs ih =>
    rw [applyCalls_cons]
    exact ih (applyCall c t) (applyCall_inv_confirmed c t h)

/-! ## Claim theorems -/

/-- C1: for every `Track` and every finite sequence of `predict` /
`update` / `mark_missed` calls, the `state` field only ever moves forward
along Tentative → Confirmed → Deleted, and once `state = Deleted` no
further call changes it. -/
theorem C1_state_monotone_deleted_absorbing :
    ∀ (F M O : Type) (cs : List (Call F M O)) (t : Track F M O),
      stateRank t.state ≤ stateRank (applyCalls cs t).state ∧
      (t.state = TrackState.Deleted →
        (applyCalls cs t).state = TrackState.Deleted) := by
  intro F M O cs
  induction cs with
  | nil => exact fun t => ⟨le_refl _, fun h => h⟩
  | cons c cs ih =>
    intro t
    rw [applyCalls_cons]
    exact ⟨le_trans (applyCall_state_mono c t) (ih (applyCall c t)).1,
      fun h => (ih (applyCall c t)).2 (applyCall_deleted c t h)⟩

theorem C1_witness :
    (applyCalls [Call.predict kfId, Call.update kfId dFeat, Call.mark_missed]
        (tSeed.mark_missed)).state = TrackState.Deleted :=
  (C1_state_monotone_deleted_absorbing ℕ ℕ ℕ
    [Call.predict kfId, Call.update kfId dFeat, Call.mark_missed]
    (tSeed.mark_missed)).2 (by decide)

/-- C2: a track transitions to `Confirmed` exactly on an `update` call made
while still `Tentative` whose post-increment `hits` (`hits + 1`, since every
`update` increments `hits` by exactly 1) has reached `n_init`; starting from
construction, the state is never `Confirmed` while `hits` is below
`n_init`. -/
theorem C2_confirmed_exactly_at_threshold :
    (∀ (F M O : Type) (kf : KalmanFilter) (d : Detection F M O)
        (t : Track F M O),
        ((t.update kf d).state = TrackState.Confirmed ∧
            t.state ≠ TrackState.Confirmed) ↔
          (t.state = TrackState.Tentative ∧ (t.hits : ℤ) + 1 ≥ t.n_init)) ∧
    (∀ (F M O : Type) (kf : KalmanFilter) (d : Detection F M O)
        (t : Track F M O), (t.update kf d).hits = t.hits + 1) ∧
    (∀ (F M O : Type) (cs : List (Call F M O)) (mean : List ℚ)
        (cov : List (List ℚ)) (tid : ℕ) (ni ma : ℤ) (feature : Option F)
        (oltwh : Option (List ℚ)) (dc : Option String) (conf : Option ℚ)
        (im : Option M) (oth : Option O),
        (applyCalls cs (initTrack mean cov tid ni ma feature oltwh dc conf
            im oth)).state = TrackState.Confirmed →
          ((applyCalls cs (initTrack mean cov tid ni ma feature oltwh dc conf
              im oth)).hits : ℤ) ≥
            (applyCalls cs (initTrack mean cov tid ni ma feature oltwh dc conf
              im oth)).n_init) := by
  refine ⟨?_, ?_, ?_⟩
  · intro F M O kf d t
    rw [update_state_eq]
    constructor
    · intro ⟨hc, hne⟩
      split at hc
      · rename_i hcond
        exact hcond
      · exact absurd hc hne
    · intro hcond
      rw [if_pos hcond]
      refine ⟨rfl, ?_⟩
      rw [hcond.1]
      decide
  · intro F M O kf d t
    exact update_hits_eq kf d t
  · intro F M O cs mean cov tid ni ma feature oltwh dc conf im oth
    apply applyCalls_inv_confirmed
    intro h
    exact absurd h (by simp [initTrack])

theorem C2_witness :
    ((applyCalls [Call.update kfId dFeat]
        (initTrack [1, 2, 3, 4] [[1, 0], [0, 1]] 0 2 1 (some 5)
          (some [10, 20, 30, 40]) (some "p") (some 1) (none : Option ℕ)
          (none : Option ℕ))).hits : ℤ) ≥
      (applyCalls [Call.update kfId dFeat]
        (initTrack [1, 2, 3, 4] [[1, 0], [0, 1]] 0 2 1 (some 5)
          (some [10, 20, 30, 40]) (some "p") (some 1) (none : Option ℕ)
          (none : Option ℕ))).n_init :=
  C2_confirmed_exactly_at_threshold.2.2 ℕ ℕ ℕ [Call.update kfId dFeat]
    [1, 2, 3, 4] [[1, 0], [0, 1]] 0 2 1 (some 5) (some [10, 20, 30, 40])
    (some "p") (some 1) none none (by decide)

/-- C3: `mark_missed` on a `Tentative` track always yields `Deleted`; on a
`Confirmed` track it yields `Deleted` iff `time_since_update > max_age` and
otherwise leaves the state unchanged; and it never changes any field other
than `state`. -/
theorem C3_mark_missed_semantics :
    ∀ (F M O : Type) (t : Track F M O),
      (t.state = TrackState.Tentative →
        (t.mark_missed).state = TrackState.Deleted) ∧
      (t.state = TrackState.Confirmed →
        ((t.mark_missed).state = TrackState.Deleted ↔
          (t.time_since_update : ℤ) > t.max_age)) ∧
      (t.state = TrackState.Confirmed →
        ¬((t.time_since_update : ℤ) > t.max_age) →
        (t.mark_missed).state = t.state) ∧
      t.mark_missed = { t with state := (t.mark_missed).state } := by
  intro F M O t
  have hne : t.state = TrackState.Confirmed →
      ¬(t.state = TrackState.Tentative) := by
    intro h
    rw [h]
    decide
  refine ⟨?_, ?_, ?_, mark_missed_frame t⟩
  · intro h
    rw [mark_missed_state_eq, if_pos h]
  · intro h
    rw [mark_missed_state_eq, if_neg (hne h)]
    by_cases hc : (t.time_since_update : ℤ) > t.max_age
    · rw [if_pos hc]
      exact ⟨fun _ => hc, fun _ => rfl⟩
    · rw [if_neg hc]
      constructor
      · intro hd
        rw [h] at hd
        exact absurd hd (by decide)
      · intro hh
        exact absurd hh hc
  · intro h hn
    rw [mark_missed_state_eq, if_neg (hne h), if_neg hn, h]

theorem C3_witness :
    (tSeed.mark_missed).state = TrackState.Deleted :=
  (C3_mark_missed_semantics ℕ ℕ ℕ tSeed).1 rfl

/-- C5: every `predict` call increments `age` and `time_since_update` by
exactly 1, clears `original_ltwh`, `det_conf`, `instance_mask` and `others`
to absent, and leaves `state`, `hits`, `features`, `trajectory` and
`det_class` unchanged. -/
theorem C5_predict_frame :
    ∀ (F M O : Type) (kf : KalmanFilter) (t : Track F M O),
      (t.predict kf).age = t.age + 1 ∧
      (t.predict kf).time_since_update = t.time_since_update + 1 ∧
      (t.predict kf).original_ltwh = none ∧
      (t.predict kf).det_conf = none ∧
      (t.predict kf).instance_mask = none ∧
      (t.predict kf).others = none ∧
      (t.predict kf).state = t.state ∧
      (t.predict kf).hits = t.hits ∧
      (t.predict kf).features = t.features ∧
      (t.predict kf).trajectory = t.trajectory ∧
      (t.predict kf).det_class = t.det_class := by
  intro F M O kf t
  exact ⟨rfl, rfl, rfl, rfl, rfl, rfl, rfl, rfl, rfl, rfl, rfl⟩

/-- C10: a track constructed with a present `original_ltwh` box starts with
a one-point trajectory holding top-left plus floor-divided half of
(width, height); a track constructed without one starts with an empty
trajectory. -/
theorem C10_init_trajectory :
    ∀ (F M O : Type) (mean : List ℚ) (cov : List (List ℚ)) (tid : ℕ)
      (ni ma : ℤ) (feature : Option F) (b : List ℚ) (dc : Option String)
      (conf : Option ℚ) (im : Option M) (oth : Option O),
      (initTrack mean cov tid ni ma feature (some b) dc conf im
          oth).trajectory =
        [[b.getD 0 0 + ((Int.floor (b.getD 2 0 / 2) : ℤ) : ℚ),
          b.getD 1 0 + ((Int.floor (b.getD 3 0 / 2) : ℤ) : ℚ)]] ∧
      (initTrack mean cov tid ni ma feature none dc conf im
          oth).trajectory = [] := by
  intro F M O mean cov tid ni ma feature b dc conf im oth
  exact ⟨rfl, rfl⟩

theorem update_features_eq {F M O : Type} (kf : KalmanFilter)
    (d : Detection F M O) (t : Track F M O) :
    (t.update kf d).features = t.features ++ [d.feature] := by
  simp only [Track.update]
  split <;> rfl

theorem update_latest_feature_eq {F M O : Type} (kf : KalmanFilter)
    (d : Detection F M O) (t : Track F M O) :
    (t.update kf d).latest_feature = d.feature := by
  simp only [Track.update]
  split <;> rfl

theorem headD_eq_getD (l : List (List ℚ)) : l.headD [] = l.getD 0 [] := by
  cases l <;> rfl

theorem getLastD_eq_getD (l : List (List ℚ)) :
    l.getLastD [] = l.getD (l.length - 1) [] := by
  rw [List.getLastD_eq_getLast? [] l, List.getLast?_eq_getElem? l,
    List.getD_eq_getElem?_getD]

theorem roundtrip_len4 (b : List ℚ) (hb : b.length = 4) :
    ltrb_to_ltwh (ltwh_to_ltrb b) = b := by
  match b, hb with
  | [x, y, w, h], _ =>
    simp only [ltwh_to_ltrb, ltrb_to_ltwh, List.getD]
    norm_num

/-- C4 counterexample: updating a track carrying a stored feature with a
detection whose feature is absent does change `features` (a `none` entry is
appended) and does change `latest_feature` (overwritten to `none`), so the
claim as stated fails on this input. -/
theorem C4_counterexample :
    ¬(((tSeed.update kfId dNoFeat).features = tSeed.features) ∧
      ((tSeed.update kfId dNoFeat).latest_feature = tSeed.latest_feature)) := by
  decide

/-- C4 (amended): for every track and every detection whose feature vector
is absent, `update` appends the absent feature to `features` and overwrites
`latest_feature` with it (setting it to absent), while still incrementing
`hits`. -/
theorem C4_update_absent_feature :
    ∀ (F M O : Type) (kf : KalmanFilter) (d : Detection F M O)
      (t : Track F M O), d.feature = none →
      (t.update kf d).features = t.features ++ [none] ∧
      (t.update kf d).latest_feature = none ∧
      (t.update kf d).hits = t.hits + 1 := by
  intro F M O kf d t hf
  refine ⟨?_, ?_, update_hits_eq kf d t⟩
  · rw [update_features_eq, hf]
  · rw [update_latest_feature_eq, hf]

theorem C4_witness :
    (tSeed.update kfId dNoFeat).features = tSeed.features ++ [none] ∧
    (tSeed.update kfId dNoFeat).latest_feature = none ∧
    (tSeed.update kfId dNoFeat).hits = tSeed.hits + 1 :=
  C4_update_absent_feature ℕ ℕ ℕ kfId dNoFeat tSeed rfl

/-- C6: with `orig = true` and `orig_strict = true`, `to_ltwh` returns the
unavailable sentinel whenever `original_ltwh` is absent and returns the
original box when present (never the filter-derived box); with
`orig_strict = false` and `original_ltwh` absent it falls back to the box
derived from the filter mean (width `a * h`, top-left = center minus half
width/height); `to_ltrb` inherits the same semantics, including the
unavailable signal. -/
theorem C6_orig_strict_semantics :
    ∀ (F M O : Type) (t : Track F M O),
      (t.original_ltwh = none → t.to_ltwh true true = none) ∧
      (∀ b, t.original_ltwh = some b → t.to_ltwh true true = some b) ∧
      (t.original_ltwh = none →
        t.to_ltwh true false =
          some [t.mean.getD 0 0 - t.mean.getD 2 0 * t.mean.getD 3 0 / 2,
            t.mean.getD 1 0 - t.mean.getD 3 0 / 2,
            t.mean.getD 2 0 * t.mean.getD 3 0, t.mean.getD 3 0]) ∧
      (t.original_ltwh = none → t.to_ltrb true true = none) ∧
      (∀ orig strict,
        (t.to_ltrb orig strict = none ↔ t.to_ltwh orig strict = none)) := by
  intro F M O t
  refine ⟨?_, ?_, ?_, ?_, ?_⟩
  · intro h
    simp [Track.to_ltwh, h]
  · intro b h
    simp [Track.to_ltwh, h]
  · intro h
    simp [Track.to_ltwh, h, kfBox]
  · intro h
    simp [Track.to_ltrb, Track.to_ltwh, h]
  · intro orig strict
    simp [Track.to_ltrb]

theorem C6_witness :
    (tSeed.predict kfId).to_ltwh true true = none :=
  (C6_orig_strict_semantics ℕ ℕ ℕ (tSeed.predict kfId)).1 rfl

/-- C7: with fewer than two trajectory points, `get_trajectory_slope`
returns the unavailable sentinel and `get_velocity` returns all three
outputs absent; with at least two points, `get_trajectory_slope` returns
`(last_y - first_y) / (last_x - first_x + 1e-07)` computed from only the
first and the last trajectory point. -/
theorem C7_kinematics_guard :
    ∀ (F M O : Type) (t : Track F M O) (sq : ℚ → ℚ) (fps : ℚ),
      (t.trajectory.length < 2 →
        t.get_trajectory_slope = none ∧
        t.get_velocity sq fps = (none, none, none)) ∧
      (2 ≤ t.trajectory.length →
        t.get_trajectory_slope =
          some (((t.trajectory.getD (t.trajectory.length - 1) []).getD 1 0 -
              (t.trajectory.getD 0 []).getD 1 0) /
            ((t.trajectory.getD (t.trajectory.length - 1) []).getD 0 0 -
              (t.trajectory.getD 0 []).getD 0 0 + 1 / 10000000))) := by
  intro F M O t sq fps
  constructor
  · intro h
    constructor
    · simp [Track.get_trajectory_slope, h]
    · simp [Track.get_velocity, h]
  · intro h
    rw [Track.get_trajectory_slope, if_neg (by omega), headD_eq_getD,
      getLastD_eq_getD]

theorem C7_witness :
    tSeed.get_trajectory_slope = none ∧
    tSeed.get_velocity id 5 = (none, none, none) :=
  (C7_kinematics_guard ℕ ℕ ℕ tSeed id 5).1 (by decide)

/-- C8: whenever `to_ltwh` returns a box (from either the Kalman-derived or
the original-detection source, the latter assumed well-formed with four
entries), converting it to corner form by adding width/height onto the
top-left and back by subtracting recovers the width/height box exactly. -/
theorem C8_roundtrip :
    ∀ (F M O : Type) (t : Track F M O) (orig strict : Bool) (b : List ℚ),
      (∀ b0, t.original_ltwh = some b0 → b0.length = 4) →
      t.to_ltwh orig strict = some b →
      ltrb_to_ltwh (ltwh_to_ltrb b) = b := by
  intro F M O t orig strict b hwf hb
  apply roundtrip_len4
  cases orig with
  | false =>
    simp only [Track.to_ltwh, Bool.false_eq_true, if_false,
      Option.some.injEq] at hb
    rw [← hb, kfBox]
    rfl
  | true =>
    cases hW : t.original_ltwh with
    | none =>
      simp only [Track.to_ltwh, if_true, hW] at hb
      cases strict with
      | true => simp at hb
      | false =>
        simp only [Bool.false_eq_true, if_false, Option.some.injEq] at hb
        rw [← hb, kfBox]
        rfl
    | some b0 =>
      simp only [Track.to_ltwh, if_true, hW, Option.some.injEq] at hb
      rw [← hb]
      exact hwf b0 hW

theorem C8_witness :
    ltrb_to_ltwh (ltwh_to_ltrb [10, 20, 30, 40]) = [10, 20, 30, 40] :=
  C8_roundtrip ℕ ℕ ℕ tSeed true true [10, 20, 30, 40]
    (by
      intro b0 h
      have h2 : some ([10, 20, 30, 40] : List ℚ) = some b0 := h
      injection h2 with h3
      rw [← h3]
      rfl)
    rfl

theorem hread_append (h : Heap) (v : List ℚ) (i : ℕ) (hi : i < h.length) :
    hread (h ++ [v]) i = hread h i :=
  List.getD_append h [v] [] i hi

theorem hread_hwrite_ne (h : Heap) (j : ℕ) (v : List ℚ) (i : ℕ)
    (hne : i ≠ j) : hread (hwrite h j v) i = hread h i := by
  show (h.set j v).getD i [] = h.getD i []
  rw [List.getD_eq_getElem?_getD, List.getD_eq_getElem?_getD,
    List.getElem?_set_ne (fun hh => hne hh.symm)]

theorem hkfBox_pres (h : Heap) (t : HTrack) (i : ℕ) (hi : i < h.length) :
    hread (hkfBox h t).2 i = hread h i := by
  simp only [hkfBox, halloc]
  rw [hread_hwrite_ne _ _ _ _ (by omega), hread_hwrite_ne _ _ _ _ (by omega),
    hread_append _ _ _ hi]

theorem hkfBox_fst (h : Heap) (t : HTrack) : (hkfBox h t).1 = some h.length :=
  rfl

theorem hto_ltwh_pres (h : Heap) (t : HTrack) (o s : Bool) (i : ℕ)
    (hi : i < h.length) : hread (hto_ltwh h t o s).2 i = hread h i := by
  rw [hto_ltwh]
  cases o with
  | false => exact hkfBox_pres h t i hi
  | true =>
    cases ho : t.origId with
    | none =>
      cases s with
      | true => simp only [if_true]
      | false =>
        simp only [Bool.false_eq_true, if_false]
        exact hkfBox_pres h t i hi
    | some oid =>
      simp only [halloc]
      exact hread_append _ _ _ hi

theorem hto_ltwh_rid (h : Heap) (t : HTrack) (o s : Bool) (rid : ℕ)
    (hr : (hto_ltwh h t o s).1 = some rid) : rid = h.length := by
  rw [hto_ltwh] at hr
  cases o with
  | false =>
    rw [if_neg (by decide), hkfBox_fst] at hr
    injection hr with hr
    omega
  | true =>
    rw [if_pos rfl] at hr
    cases ho : t.origId with
    | none =>
      rw [ho] at hr
      cases s with
      | true => simp at hr
      | false =>
        rw [if_neg (by decide), hkfBox_fst] at hr
        injection hr with hr
        omega
    | some oid =>
      rw [ho] at hr
      simp only [halloc] at hr
      injection hr with hr
      omega

theorem hto_ltrb_pres (h : Heap) (t : HTrack) (o s : Bool) (i : ℕ)
    (hi : i < h.length) : hread (hto_ltrb h t o s).2 i = hread h i := by
  simp only [hto_ltrb]
  split
  · exact hto_ltwh_pres h t o s i hi
  · rename_i rid hsome
    have hrid := hto_ltwh_rid h t o s rid hsome
    show hread (hwrite (hto_ltwh h t o s).2 rid _) i = hread h i
    rw [hread_hwrite_ne _ _ _ _ (by omega)]
    exact hto_ltwh_pres h t o s i hi

theorem hto_center_pres (h : Heap) (t : HTrack) (i : ℕ) (hi : i < h.length) :
    hread (hto_center h t).2 i = hread h i := by
  rw [hto_center]
  cases ho : t.origId with
  | none => rfl
  | some oid =>
    simp only [halloc]
    rw [hread_append _ _ _
      (by simp only [hwrite, List.length_set, List.length_append]; omega)]
    rw [hread_hwrite_ne _ _ _ _ (by omega), hread_append _ _ _ hi]

/-- C9: the read-only geometry queries `to_ltwh`, `to_tlwh`, `to_ltrb`,
`to_tlbr` and `to_center`, run over an explicit array store in which
`.copy()` allocates and the in-place slice assignments write through array
ids, never change the arrays held by the track: after any of these calls
the stored `mean` array and the stored `original_ltwh` array read back
exactly as before. -/
theorem C9_geometry_queries_pure :
    ∀ (h : Heap) (t : HTrack) (orig strict : Bool),
      t.meanId < h.length →
      (∀ oid, t.origId = some oid → oid < h.length) →
      ((hread (hto_ltwh h t orig strict).2 t.meanId = hread h t.meanId ∧
        ∀ oid, t.origId = some oid →
          hread (hto_ltwh h t orig strict).2 oid = hread h oid) ∧
       (hread (hto_tlwh h t orig strict).2 t.meanId = hread h t.meanId ∧
        ∀ oid, t.origId = some oid →
          hread (hto_tlwh h t orig strict).2 oid = hread h oid) ∧
       (hread (hto_ltrb h t orig strict).2 t.meanId = hread h t.meanId ∧
        ∀ oid, t.origId = some oid →
          hread (hto_ltrb h t orig strict).2 oid = hread h oid) ∧
       (hread (hto_tlbr h t orig strict).2 t.meanId = hread h t.meanId ∧
        ∀ oid, t.origId = some oid →
          hread (hto_tlbr h t orig strict).2 oid = hread h oid) ∧
       (hread (hto_center h t).2 t.meanId = hread h t.meanId ∧
        ∀ oid, t.origId = some oid →
          hread (hto_center h t).2 oid = hread h oid)) := by
  intro h t orig strict hm ho
  refine ⟨⟨?_, ?_⟩, ⟨?_, ?_⟩, ⟨?_, ?_⟩, ⟨?_, ?_⟩, ⟨?_, ?_⟩⟩
  · exact hto_ltwh_pres h t orig strict t.meanId hm
  · exact fun oid hoid => hto_ltwh_pres h t orig strict oid (ho oid hoid)
  · exact hto_ltwh_pres h t orig strict t.meanId hm
  · exact fun oid hoid => hto_ltwh_pres h t orig strict oid (ho oid hoid)
  · exact hto_ltrb_pres h t orig strict t.meanId hm
  · exact fun oid hoid => hto_ltrb_pres h t orig strict oid (ho oid hoid)
  · exact hto_ltrb_pres h t orig strict t.meanId hm
  · exact fun oid hoid => hto_ltrb_pres h t orig strict oid (ho oid hoid)
  · exact hto_center_pres h t t.meanId hm
  · exact fun oid hoid => hto_center_pres h t oid (ho oid hoid)

theorem C9_witness :
    hread (hto_ltrb [[1, 2, 3, 4], [10, 20, 30, 40]] ⟨0, some 1⟩
        true false).2 0 =
      hread [[1, 2, 3, 4], [10, 20, 30, 40]] 0 :=
  ((C9_geometry_queries_pure [[1, 2, 3, 4], [10, 20, 30, 40]] ⟨0, some 1⟩
      true false (by decide)
      (by
        intro oid hoid
        injection hoid with hoid
        subst hoid
        decide)).2.2.1).1
